import Mathlib

/-!
Shallow embedding of `visualize_layout.py`, a single-pass script that loads a
graph layout (node positions, edges), prints summary statistics and renders a
three-panel image.  Python floats are idealized as exact rationals (`ℚ`) for
the stored coordinates and as real numbers (`ℝ`) for derived quantities that
go through `np.sqrt` (standard deviations, Euclidean distances); machine-level
rounding of IEEE doubles is outside the model, as is the textual `:.1f`
formatting of printed values (each console line is modelled as a constructor
carrying the exact values it prints).  NumPy reduction and indexing semantics
are modelled explicitly: `min`/`max` on an empty array raises `ValueError`
(`RunError.emptyReduce`), basic integer indexing accepts negative indices in
`[-N, -1]` by wrapping and raises `IndexError` (`RunError.indexError`) exactly
when the index is `< -N` or `≥ N`.
-/

/-- Node record of the input dataset: coordinates and a display label
(`nodes` entries of `data.json`). -/
structure Node where
  x : ℚ
  y : ℚ
  label : String
deriving DecidableEq

/-- Edge triple `[sourceIndex, targetIndex, typeTag]` as stored in the
`edges` list of the input file.  Indices are Python ints, hence `ℤ`. -/
abbrev Edge := ℤ × ℤ × ℤ

/-- The in-memory snapshot the script loads once: `nodes` and `edges`. -/
structure Dataset where
  nodes : List Node
  edges : List Edge
deriving DecidableEq

/-- Errors the script can raise while running: `emptyReduce` models NumPy's
`ValueError: zero-size array to reduction operation ...`; `indexError i n`
models `IndexError: index i is out of bounds for axis 0 with size n`. -/
inductive RunError where
  | emptyReduce : RunError
  | indexError (idx : ℤ) (size : ℕ) : RunError
deriving DecidableEq

/-- The `xs` array: x-coordinate of every node, in node order (line 20). -/
def xsOf (d : Dataset) : List ℚ := d.nodes.map (fun nd => nd.x)

/-- The `ys` array: y-coordinate of every node, in node order (line 21). -/
def ysOf (d : Dataset) : List ℚ := d.nodes.map (fun nd => nd.y)

/-- Minimum of a NumPy array, assuming it is nonempty (the empty case is
guarded separately at each call site, mirroring the raised `ValueError`). -/
def qMin : List ℚ → ℚ
  | [] => 0
  | x :: r => r.foldl min x

/-- Maximum of a nonempty NumPy array (see `qMin`). -/
def qMax : List ℚ → ℚ
  | [] => 0
  | x :: r => r.foldl max x

/-- Arithmetic mean, `arr.mean()` (division by zero in `ℚ` yields 0; the
script only evaluates means of nonempty arrays). -/
def qMean (l : List ℚ) : ℚ := l.sum / l.length

/-- Population variance, the square of `arr.std()` (NumPy default `ddof=0`). -/
def qVar (l : List ℚ) : ℚ := ((l.map (fun a => (a - qMean l) ^ 2)).sum) / l.length

/-- Standard deviation `arr.std()`: square root of the population variance. -/
noncomputable def stdR (l : List ℚ) : ℝ := Real.sqrt ((qVar l : ℚ) : ℝ)

/-- NumPy basic integer indexing: a negative index `i` with `-n ≤ i` wraps to
`i + n` (this is the resolved nonnegative position; bounds are checked by the
caller `bumpAt`). -/
def pyIndex (i : ℤ) (n : ℕ) : ℕ := (if i < 0 then i + n else i).toNat

/-- Element read `arr[i]` under NumPy index resolution, with a junk default
for the out-of-bounds case (call sites only use in-bounds indices, since the
degree pass has already raised on any out-of-bounds edge index). -/
def pyAt (l : List ℚ) (i : ℤ) : ℚ := l.getD (pyIndex i l.length) 0

/-- Whether NumPy rejects index `i` on an axis of size `n`
(`IndexError` exactly when `i < -n` or `i ≥ n`). -/
def npOutOfBounds (n : ℕ) (i : ℤ) : Prop := i < -(n : ℤ) ∨ (n : ℤ) ≤ i

instance (n : ℕ) (i : ℤ) : Decidable (npOutOfBounds n i) := by
  unfold npOutOfBounds; infer_instance

/-- One increment `degrees[i] += 1` of the degree pass (lines 34-35):
raises `IndexError` when `i` is out of bounds for size `n`, otherwise bumps
the entry at the resolved (possibly wrapped) position. -/
def bumpAt (n : ℕ) (degs : List ℕ) (i : ℤ) : Except RunError (List ℕ) :=
  if npOutOfBounds n i then .error (.indexError i n)
  else .ok (degs.set (pyIndex i n) (degs.getD (pyIndex i n) 0 + 1))

/-- The loop of lines 33-35: for each edge `(src, tgt, ty)`, increment the
degree of `src` then of `tgt`, stopping at the first `IndexError`. -/
def degreesAux (n : ℕ) : List Edge → List ℕ → Except RunError (List ℕ)
  | [], degs => .ok degs
  | (s, t, _) :: rest, degs =>
    match bumpAt n degs s with
    | .error e => .error e
    | .ok d1 =>
      match bumpAt n d1 t with
      | .error e => .error e
      | .ok d2 => degreesAux n rest d2

/-- Degree computation of lines 32-35: start from `np.zeros(len(nodes))` and
run the edge loop. -/
def computeDegrees (d : Dataset) : Except RunError (List ℕ) :=
  degreesAux d.nodes.length d.edges (List.replicate d.nodes.length 0)

/-- All edge endpoints in processing order (source before target of each
edge), used to state what the degree pass counts. -/
def endpointsList (es : List Edge) : List ℤ := es.flatMap (fun e => [e.1, e.2.1])

/-- Maximum of a NumPy integer array, `degrees.max()` (nonempty at its call
site since the node count has already been checked nonzero). -/
def natMax : List ℕ → ℕ
  | [] => 0
  | x :: r => r.foldl max x

/-- Python banker's rounding of a rational to the nearest integer: round half
to even, as `round` does on the exact value (IEEE representation error of the
input double is outside the model). -/
def bankersRound (q : ℚ) : ℤ :=
  let f := ⌊q⌋
  let r := q - f
  if r < 1 / 2 then f
  else if 1 / 2 < r then f + 1
  else if Even f then f else f + 1

/-- Python `round(x, 1)`: one-decimal rounding used by the overlap detector
(line 46). -/
def round1 (q : ℚ) : ℚ := (bankersRound (10 * q) : ℚ) / 10

/-- The rounded coordinate of every node, in node order: the generator
`(round(float(x), 1), round(float(y), 1)) for x, y in zip(xs, ys)`. -/
def roundedCoords (d : Dataset) : List (ℚ × ℚ) :=
  ((xsOf d).zip (ysOf d)).map (fun p => (round1 p.1, round1 p.2))

/-- One insertion into a `collections.Counter` (a hash map modelled as an
association list keyed by first occurrence): increment the existing entry for
`k` or append a fresh entry with count 1. -/
def counterAdd {α : Type} [DecidableEq α] : List (α × ℕ) → α → List (α × ℕ)
  | [], k => [(k, 1)]
  | (a, c) :: rest, k =>
    if a = k then (a, c + 1) :: rest else (a, c) :: counterAdd rest k

/-- The `Counter` built from a list of keys (line 46). -/
def counterOf {α : Type} [DecidableEq α] (l : List α) : List (α × ℕ) :=
  l.foldl counterAdd []

/-- The overlap statistic of line 47: `sum(1 for c in rounded.values() if
c > 1)`, the number of Counter entries with count above one. -/
def overlapsCount (d : Dataset) : ℕ :=
  ((counterOf (roundedCoords d)).filter (fun e => 1 < e.2)).length

/-- The 64-bit modulus of SipHash state words. -/
def w64 : ℕ := 2 ^ 64

/-- Left rotation of a 64-bit word. -/
def rotl64 (x n : ℕ) : ℕ := ((x <<< n) % w64) ||| (x >>> (64 - n))

/-- SipHash internal state: four 64-bit words. -/
structure SipState where
  v0 : ℕ
  v1 : ℕ
  v2 : ℕ
  v3 : ℕ

/-- One SipRound of the SipHash permutation. -/
def sipRound (s : SipState) : SipState :=
  let a0 := (s.v0 + s.v1) % w64
  let a1 := rotl64 s.v1 13
  let b1 := a1 ^^^ a0
  let b0 := rotl64 a0 32
  let a2 := (s.v2 + s.v3) % w64
  let a3 := rotl64 s.v3 16
  let b3 := a3 ^^^ a2
  let c0 := (b0 + b3) % w64
  let c3 := rotl64 b3 21
  let d3 := c3 ^^^ c0
  let c2 := (a2 + b1) % w64
  let c1 := rotl64 b1 17
  let d1 := c1 ^^^ c2
  let d2 := rotl64 c2 32
  ⟨c0, d1, d2, d3⟩

/-- Little-endian value of a byte list (at most 8 bytes at call sites). -/
def le64 (bs : List ℕ) : ℕ := bs.foldr (fun b acc => b + 256 * acc) 0

/-- SipHash-1-3 of a byte string under the 128-bit key `(k0, k1)`: CPython's
`pysiphash` with one compression round and three finalization rounds, the
default string-hash algorithm of the CPython builds targeted by the script.
The key is the per-process `_Py_HashSecret`, drawn at interpreter startup
unless `PYTHONHASHSEED` pins it. -/
def siphash13 (k0 k1 : ℕ) (msg : List ℕ) : ℕ :=
  let s0 : SipState :=
    ⟨0x736f6d6570736575 ^^^ k0, 0x646f72616e646f6d ^^^ k1,
     0x6c7967656e657261 ^^^ k0, 0x7465646279746573 ^^^ k1⟩
  let nblocks := msg.length / 8
  let s1 := (List.range nblocks).foldl
    (fun s k =>
      let m := le64 ((msg.drop (8 * k)).take 8)
      let sa := { s with v3 := s.v3 ^^^ m }
      let sb := sipRound sa
      { sb with v0 := sb.v0 ^^^ m }) s0
  let b := ((msg.length <<< 56) % w64) ||| le64 (msg.drop (8 * nblocks))
  let s2 := { s1 with v3 := s1.v3 ^^^ b }
  let s3 := sipRound s2
  let s4 := { s3 with v0 := s3.v0 ^^^ b }
  let s5 := { s4 with v2 := s4.v2 ^^^ 0xff }
  let s6 := sipRound (sipRound (sipRound s5))
  (s6.v0 ^^^ s6.v1) ^^^ (s6.v2 ^^^ s6.v3)

/-- ASCII bytes of `str(i)` for a natural number `i`. -/
def strBytes (n : ℕ) : List ℕ := (Nat.toDigits 10 n).map Char.toNat

/-- CPython `hash` of an ASCII string under hash key `(k0, k1)`: 0 for the
empty string, otherwise the SipHash-1-3 value reinterpreted as a signed
64-bit `Py_hash_t`, with the reserved value `-1` mapped to `-2`. -/
def pyHashStr (k0 k1 : ℕ) (s : List ℕ) : ℤ :=
  if s = [] then 0
  else
    let u := siphash13 k0 k1 s
    let t : ℤ := if u < 2 ^ 63 then (u : ℤ) else (u : ℤ) - 2 ^ 64
    if t = -1 then -2 else t

/-- Python `%` with a positive modulus: result in `[0, b)`. -/
def pyMod (a b : ℤ) : ℤ := (a % b + b) % b

/-- The Panel 1 hue array of line 89: `hash(str(i)) % 360` for each node
index `i`, under the process hash key `(k0, k1)`. -/
def huesList (k0 k1 n : ℕ) : List ℤ :=
  (List.range n).map (fun i => pyMod (pyHashStr k0 k1 (strBytes i)) 360)

/-- Number of nodes covered by the pairwise-distance sample:
`min(500, len(nodes))` (lines 54-55). -/
def sampleSize (d : Dataset) : ℕ := min 500 d.nodes.length

/-- Euclidean distance between two points, `np.sqrt((x1-x2)**2 + (y1-y2)**2)`
on exact coordinates. -/
noncomputable def ptDist (p q : ℚ × ℚ) : ℝ :=
  Real.sqrt ((((p.1 - q.1) ^ 2 + (p.2 - q.2) ^ 2 : ℚ) : ℝ))

/-- Coordinates `(xs[i], ys[i])` for a nonnegative in-range loop index. -/
def coordAt (d : Dataset) (i : ℕ) : ℚ × ℚ := ((xsOf d).getD i 0, (ysOf d).getD i 0)

/-- The pairwise-distance sample of lines 53-57: the double loop
`for i in range(min(500, N)): for j in range(i+1, min(500, N))`, appending
the Euclidean distance of nodes `i` and `j`. -/
noncomputable def distsList (d : Dataset) : List ℝ :=
  (List.range (sampleSize d)).flatMap (fun i =>
    (List.range' (i + 1) (sampleSize d - (i + 1))).map (fun j =>
      ptDist (coordAt d i) (coordAt d j)))

/-- Minimum of a NumPy float array, assuming nonempty (see `qMin`). -/
noncomputable def npMin : List ℝ → ℝ
  | [] => 0
  | x :: r => r.foldl min x

/-- Maximum of a NumPy float array, assuming nonempty (see `qMin`). -/
noncomputable def npMax : List ℝ → ℝ
  | [] => 0
  | x :: r => r.foldl max x

/-- Ascending sort used by `np.median`. -/
noncomputable def npSorted (l : List ℝ) : List ℝ := l.insertionSort (fun a b => a ≤ b)

/-- NumPy `np.median`: middle element of the sorted data for odd length, the
average of the two middle elements for even length. -/
noncomputable def npMedian (l : List ℝ) : ℝ :=
  let s := npSorted l
  if l.length % 2 = 1 then s.getD (l.length / 2) 0
  else (s.getD (l.length / 2 - 1) 0 + s.getD (l.length / 2) 0) / 2

/-- NumPy `arr.mean()` on a float array. -/
noncomputable def npMean (l : List ℝ) : ℝ := l.sum / l.length

/-- The pairwise-distance report of line 59: `None` models the `ValueError`
raised by `dists.min()` on an empty sample, otherwise the printed
`(min, median, mean)` triple. -/
noncomputable def distReport (d : Dataset) : Option (ℝ × ℝ × ℝ) :=
  match distsList d with
  | [] => none
  | x :: r => some (npMin (x :: r), npMedian (x :: r), npMean (x :: r))

/-- The edge-length array of lines 62-66: Euclidean length of every edge,
endpoint coordinates read with NumPy index resolution (the degree pass has
already raised on genuinely out-of-bounds indices). -/
noncomputable def edgeLens (d : Dataset) : List ℝ :=
  d.edges.map (fun e =>
    ptDist (pyAt (xsOf d) e.1, pyAt (ysOf d) e.1)
           (pyAt (xsOf d) e.2.1, pyAt (ysOf d) e.2.1))

/-- The edge-length report of line 67: `None` models the `ValueError` raised
by `edge_lens.min()` on an empty edge list, otherwise the printed
`(min, median, mean, max)` tuple. -/
noncomputable def edgeLenReport (d : Dataset) : Option (ℝ × ℝ × ℝ × ℝ) :=
  match edgeLens d with
  | [] => none
  | x :: r => some (npMin (x :: r), npMedian (x :: r), npMean (x :: r), npMax (x :: r))

/-- Panel 2 window center x-coordinate, `cx = xs.mean()` (line 97). -/
def cxOf (d : Dataset) : ℚ := qMean (xsOf d)

/-- Panel 2 window center y-coordinate, `cy = ys.mean()` (line 97). -/
def cyOf (d : Dataset) : ℚ := qMean (ysOf d)

/-- Panel 2 window half-width, `radius = 2.0 * max(xs.std(), ys.std())`
(line 98). -/
noncomputable def coreRadius (d : Dataset) : ℝ :=
  2 * max (stdR (xsOf d)) (stdR (ysOf d))

/-- The drawing condition of lines 109-110: all four coordinates of the
edge's endpoints are strictly within `radius` of the window center. -/
noncomputable def edgeInCore (d : Dataset) (e : Edge) : Prop :=
  |((pyAt (xsOf d) e.1 : ℚ) : ℝ) - (cxOf d : ℝ)| < coreRadius d ∧
  |((pyAt (ysOf d) e.1 : ℚ) : ℝ) - (cyOf d : ℝ)| < coreRadius d ∧
  |((pyAt (xsOf d) e.2.1 : ℚ) : ℝ) - (cxOf d : ℝ)| < coreRadius d ∧
  |((pyAt (ysOf d) e.2.1 : ℚ) : ℝ) - (cyOf d : ℝ)| < coreRadius d

open Classical in
/-- The Panel 2 edge list `lines2` of lines 106-112: the edges passing the
in-window test, in order. -/
noncomputable def lines2 (d : Dataset) : List Edge :=
  d.edges.filter (fun e => decide (edgeInCore d e))

/-- Observable content of the saved raster image: pixel dimensions
(`figsize=(30, 10)` at `dpi=150`), the Panel 1 hue array, the Panel 1 node
size array and the Panel 2 edge list.  Panel annotations and the colorbar are
not modelled. -/
structure ImageData where
  pxWidth : ℕ
  pxHeight : ℕ
  hues : List ℤ
  sizes : List ℚ
  panel2edges : List Edge

/-- Pixel dimensions of an image, the part of it the round-trip property
compares. -/
def imgDims (im : ImageData) : ℕ × ℕ := (im.pxWidth, im.pxHeight)

/-- One console line of the stats report, carrying the exact values the
script prints (string formatting is not modelled). -/
inductive OutLine where
  | nodesLine (n : ℕ)
  | edgesLine (m : ℕ)
  | xRangeLine (lo hi : ℚ)
  | yRangeLine (lo hi : ℚ)
  | stdLine (sx sy : ℝ)
  | nanLine (b : Bool)
  | infLine (b : Bool)
  | maxDegreeLine (k : ℕ)
  | isolatedLine (z o : ℕ)
  | overlapsLine (c : ℕ)
  | pairwiseLine (mn md me : ℝ)
  | edgeLenLine (mn md me mx : ℝ)
  | savedLine

/-- Outcome of one run: the console lines actually printed (in order), the
error that aborted the run if any, and the image written on success. -/
structure RunResult where
  lines : List OutLine
  err : Option RunError
  image : Option ImageData

/-- The whole script as a function of the dataset and the process hash key:
print node and edge counts (lines 23-24); compute coordinate range and spread
stats (lines 25-29, raising on an empty node list); compute degrees
(lines 32-42, raising on an out-of-bounds edge index); report overlaps
(lines 45-48); report the sampled pairwise distances (lines 50-59, raising on
an empty sample); report edge lengths (lines 61-67, raising on an empty edge
list); then render and save the three-panel image (lines 70-147).  A raised
error aborts the run with the lines printed so far and no image file.  The
coordinates are finite rationals, so the NaN/Inf flags of lines 28-29 are
`false`. -/
noncomputable def run (d : Dataset) (k0 k1 : ℕ) : RunResult :=
  let n := d.nodes.length
  let ls1 := [OutLine.nodesLine n, OutLine.edgesLine d.edges.length]
  match xsOf d with
  | [] => ⟨ls1, some .emptyReduce, none⟩
  | _ :: _ =>
    let ls2 := ls1 ++
      [OutLine.xRangeLine (qMin (xsOf d)) (qMax (xsOf d)),
       OutLine.yRangeLine (qMin (ysOf d)) (qMax (ysOf d)),
       OutLine.stdLine (stdR (xsOf d)) (stdR (ysOf d)),
       OutLine.nanLine false, OutLine.infLine false]
    match computeDegrees d with
    | .error e => ⟨ls2, some e, none⟩
    | .ok degs =>
      let maxdeg := natMax degs
      let ls3 := ls2 ++
        [OutLine.maxDegreeLine maxdeg,
         OutLine.isolatedLine (degs.count 0) (degs.count 1),
         OutLine.overlapsLine (overlapsCount d)]
      match distReport d with
      | none => ⟨ls3, some .emptyReduce, none⟩
      | some (dm, dmed, dmean) =>
        let ls4 := ls3 ++ [OutLine.pairwiseLine dm dmed dmean]
        match edgeLenReport d with
        | none => ⟨ls4, some .emptyReduce, none⟩
        | some (em, emed, emean, emax) =>
          let ls5 := ls4 ++ [OutLine.edgeLenLine em emed emean emax]
          let sizes := degs.map (fun dg => 2 + ((dg : ℚ) / (maxdeg : ℚ)) * 30)
          ⟨ls5 ++ [OutLine.savedLine], none,
           some ⟨30 * 150, 10 * 150, huesList k0 k1 n, sizes, lines2 d⟩⟩

/-- An edge whose endpoints are valid 0-based node indices for `n` nodes
(the `[0, N)` range of the data-model invariant). -/
def validEdge (n : ℕ) (e : Edge) : Prop :=
  0 ≤ e.1 ∧ e.1 < (n : ℤ) ∧ 0 ≤ e.2.1 ∧ e.2.1 < (n : ℤ)

instance (n : ℕ) (e : Edge) : Decidable (validEdge n e) := by
  unfold validEdge; infer_instance

/-- The dataset has an edge endpoint NumPy rejects (`< -N` or `≥ N`). -/
def badEdgeExists (d : Dataset) : Prop :=
  ∃ e ∈ d.edges, npOutOfBounds d.nodes.length e.1 ∨ npOutOfBounds d.nodes.length e.2.1

/-- Overlap statistic as the spec words it: the number of distinct rounded
positions occupied by more than one node. -/
def specOverlapsCount (d : Dataset) : ℕ :=
  ((roundedCoords d).toFinset.filter
    (fun p => 1 < (roundedCoords d).countP (fun q => q = p))).card

/-- Keys of a Counter association list, in insertion order. -/
def keysOf {α : Type} (acc : List (α × ℕ)) : List α := acc.map Prod.fst

/-- Value stored for a key in a Counter association list (first matching
entry; 0 when absent). -/
def cntIn {α : Type} [DecidableEq α] : List (α × ℕ) → α → ℕ
  | [], _ => 0
  | (a, c) :: rest, k => if a = k then c else cntIn rest k

/-- All unordered pairs of indices below `m` as the spec words them: the
pairs `(i, j)` with `0 ≤ i < j < m`. -/
def allPairs (m : ℕ) : List (ℕ × ℕ) :=
  ((List.range m).product (List.range m)).filter (fun p => p.1 < p.2)

/-- Pairwise-distance sample as the spec words it: the Euclidean distance of
every unordered pair among the first `min(500, N)` nodes. -/
noncomputable def specDistSample (d : Dataset) : List ℝ :=
  (allPairs (sampleSize d)).map (fun p => ptDist (coordAt d p.1) (coordAt d p.2))

/-- Spec-side distance report: minimum, median and mean of the sample,
absent when the sample is empty. -/
noncomputable def specDistReport (d : Dataset) : Option (ℝ × ℝ × ℝ) :=
  match specDistSample d with
  | [] => none
  | x :: r => some (npMin (x :: r), npMedian (x :: r), npMean (x :: r))

/-- Default node used only as the junk out-of-bounds value of list indexing
(never read at in-bounds positions). -/
def defaultNode : Node := ⟨0, 0, ""⟩

/-- Coordinates of the node at 0-based position `i`. -/
def nodePt (d : Dataset) (i : ℕ) : ℚ × ℚ :=
  ((d.nodes.getD i defaultNode).x, (d.nodes.getD i defaultNode).y)

/-- Spec wording of the Panel 2 window test: the point lies strictly inside
the square window centered at the mean position with half-width
`2 × max(std x, std y)`, on both coordinates. -/
def nodeInWindow (d : Dataset) (p : ℚ × ℚ) : Prop :=
  |((p.1 : ℚ) : ℝ) - (cxOf d : ℝ)| < coreRadius d ∧
  |((p.2 : ℚ) : ℝ) - (cyOf d : ℝ)| < coreRadius d

/-- Two nodes with one valid edge: a fully successful run. -/
def dsPair : Dataset := ⟨[⟨0, 0, "a"⟩, ⟨3, 4, "b"⟩], [(0, 1, 0)]⟩

/-- Two nodes and an edge whose source index `-1` lies outside `[0, N)`. -/
def dsNegIdx : Dataset := ⟨[⟨0, 0, "a"⟩, ⟨3, 4, "b"⟩], [(-1, 0, 0)]⟩

/-- The empty dataset: no nodes, no edges. -/
def dsEmpty : Dataset := ⟨[], []⟩

/-- No nodes but a (never examined) edge list. -/
def dsEmptyWithEdge : Dataset := ⟨[], [(7, 7, 7)]⟩

/-- Two nodes and an empty edge list. -/
def dsNoEdges : Dataset := ⟨[⟨0, 0, "a"⟩, ⟨1, 1, "b"⟩], []⟩

/-- One node and an edge referencing index `N` (one past the last index). -/
def dsOobEdge : Dataset := ⟨[⟨0, 0, "a"⟩], [(1, 0, 0)]⟩

/-- Two nodes, a self-loop on node 0 and a normal edge. -/
def dsLoop : Dataset := ⟨[⟨0, 0, "a"⟩, ⟨1, 1, "b"⟩], [(0, 0, 0), (0, 1, 2)]⟩

/-- Three nodes, two sharing a position. -/
def dsOverlapA : Dataset :=
  ⟨[⟨0, 0, "a"⟩, ⟨0, 0, "b"⟩, ⟨10, 10, "c"⟩], [(0, 1, 0)]⟩

/-- The nodes of `dsOverlapA` in a different order. -/
def dsOverlapB : Dataset :=
  ⟨[⟨10, 10, "c"⟩, ⟨0, 0, "a"⟩, ⟨0, 0, "b"⟩], []⟩

/-- A single node (and no edges). -/
def dsOneNode : Dataset := ⟨[⟨0, 0, "a"⟩], []⟩

lemma getD_set_bump (l : List ℕ) (k j : ℕ) (hk : k < l.length) :
    (l.set k (l.getD k 0 + 1)).getD j 0 = l.getD j 0 + if j = k then 1 else 0 := by
  induction l generalizing k j with
  | nil => simp at hk
  | cons a t ih =>
    cases k with
    | zero =>
      cases j with
      | zero => simp [List.getD]
      | succ j => simp [List.getD]
    | succ k =>
      cases j with
      | zero => simp [List.getD]
      | succ j =>
        simp only [List.set, List.getD_cons_succ]
        simpa using ih k j (by simpa using hk)

lemma sum_set_bump (l : List ℕ) (k : ℕ) (hk : k < l.length) :
    (l.set k (l.getD k 0 + 1)).sum = l.sum + 1 := by
  induction l generalizing k with
  | nil => simp at hk
  | cons a t ih =>
    cases k with
    | zero => simp [List.getD]; omega
    | succ k =>
      simp only [List.set, List.sum_cons, List.getD_cons_succ]
      rw [ih k (by simpa using hk)]
      omega

lemma getD_replicate_zero (n j : ℕ) : (List.replicate n (0 : ℕ)).getD j 0 = 0 := by
  induction n generalizing j with
  | zero => simp [List.getD]
  | succ n ih =>
    cases j with
    | zero => simp [List.replicate, List.getD]
    | succ j =>
      rw [show List.replicate (n + 1) (0 : ℕ) = 0 :: List.replicate n 0 from rfl,
        List.getD_cons_succ]
      exact ih j

lemma bumpAt_valid (n : ℕ) (degs : List ℕ) (i : ℤ) (h0 : 0 ≤ i) (hn : i < (n : ℤ)) :
    bumpAt n degs i = .ok (degs.set i.toNat (degs.getD i.toNat 0 + 1)) := by
  have hoob : ¬ npOutOfBounds n i := by unfold npOutOfBounds; omega
  have hpy : pyIndex i n = i.toNat := by unfold pyIndex; rw [if_neg (by omega)]
  simp [bumpAt, hoob, hpy]

lemma bumpAt_oob (n : ℕ) (degs : List ℕ) (i : ℤ) (h : npOutOfBounds n i) :
    bumpAt n degs i = .error (.indexError i n) := by
  simp [bumpAt, h]

lemma bumpAt_ok_ex (n : ℕ) (degs : List ℕ) (i : ℤ) (h : ¬ npOutOfBounds n i) :
    ∃ d1, bumpAt n degs i = .ok d1 := by
  simp [bumpAt, h]

lemma endpointsList_cons (s t ty : ℤ) (rest : List Edge) :
    endpointsList ((s, t, ty) :: rest) = s :: t :: endpointsList rest := by
  simp [endpointsList]

lemma degreesAux_valid (n : ℕ) (es : List Edge) (degs : List ℕ)
    (hlen : degs.length = n)
    (hval : ∀ e ∈ es, validEdge n e) :
    ∃ out, degreesAux n es degs = .ok out ∧ out.length = n ∧
      (∀ j, j < n → out.getD j 0 = degs.getD j 0 + (endpointsList es).count (j : ℤ)) ∧
      out.sum = degs.sum + 2 * es.length := by
  induction es generalizing degs with
  | nil =>
    exact ⟨degs, rfl, hlen, by simp [endpointsList], by simp⟩
  | cons e rest ih =>
    obtain ⟨hs0, hsn, ht0, htn⟩ := hval e (List.mem_cons_self e rest)
    obtain ⟨s, t, ty⟩ := e
    simp only at hs0 hsn ht0 htn
    set degs1 := degs.set s.toNat (degs.getD s.toNat 0 + 1) with hdegs1
    have hlen1 : degs1.length = n := by rw [hdegs1, List.length_set, hlen]
    set degs2 := degs1.set t.toNat (degs1.getD t.toNat 0 + 1) with hdegs2
    have hlen2 : degs2.length = n := by rw [hdegs2, List.length_set, hlen1]
    obtain ⟨out, hrun, holen, hpt, hsum⟩ := ih degs2 hlen2
      (fun e he => hval e (List.mem_cons_of_mem _ he))
    have h1 : bumpAt n degs s = .ok degs1 := bumpAt_valid n degs s hs0 hsn
    have h2 : bumpAt n degs1 t = .ok degs2 := bumpAt_valid n degs1 t ht0 htn
    refine ⟨out, ?_, holen, ?_, ?_⟩
    · simp only [degreesAux, h1, h2]
      exact hrun
    · intro j hj
      rw [hpt j hj, hdegs2, getD_set_bump degs1 t.toNat j (by omega), hdegs1,
        getD_set_bump degs s.toNat j (by omega)]
      simp only [endpointsList, List.flatMap_cons, List.count_append, List.count_cons,
        List.count_nil, beq_iff_eq]
      have hsj : (j = s.toNat) ↔ (s = (j : ℤ)) := by omega
      have htj : (j = t.toNat) ↔ (t = (j : ℤ)) := by omega
      by_cases hc1 : s = (j : ℤ) <;> by_cases hc2 : t = (j : ℤ) <;>
        simp [hc1, hc2, hsj, htj] <;> omega
    · rw [hsum, hdegs2, sum_set_bump degs1 t.toNat (by omega), hdegs1,
        sum_set_bump degs s.toNat (by omega)]
      simp only [List.length_cons]
      omega

lemma degreesAux_err_of_bad (n : ℕ) (es : List Edge) (degs : List ℕ)
    (h : ∃ e ∈ es, npOutOfBounds n e.1 ∨ npOutOfBounds n e.2.1) :
    ∃ i, degreesAux n es degs = .error (.indexError i n) ∧
      npOutOfBounds n i ∧ i ∈ endpointsList es := by
  induction es generalizing degs with
  | nil => simp at h
  | cons e rest ih =>
    obtain ⟨s, t, ty⟩ := e
    by_cases hs : npOutOfBounds n s
    · exact ⟨s, by simp [degreesAux, bumpAt_oob n degs s hs], hs,
        by rw [endpointsList_cons]; exact List.mem_cons_self _ _⟩
    · obtain ⟨degs1, h1⟩ := bumpAt_ok_ex n degs s hs
      by_cases ht : npOutOfBounds n t
      · exact ⟨t, by simp [degreesAux, h1, bumpAt_oob n degs1 t ht], ht,
          by rw [endpointsList_cons]
             exact List.mem_cons_of_mem _ (List.mem_cons_self _ _)⟩
      · obtain ⟨degs2, h2⟩ := bumpAt_ok_ex n degs1 t ht
        have hrest : ∃ e ∈ rest, npOutOfBounds n e.1 ∨ npOutOfBounds n e.2.1 := by
          rcases h with ⟨e, he, hbad⟩
          rcases List.mem_cons.mp he with rfl | hm
          · simp only at hbad
            tauto
          · exact ⟨e, hm, hbad⟩
        obtain ⟨i, hr, hoob, hmem⟩ := ih degs2 hrest
        refine ⟨i, by simp [degreesAux, h1, h2, hr], hoob, ?_⟩
        rw [endpointsList_cons]
        exact List.mem_cons_of_mem _ (List.mem_cons_of_mem _ hmem)

lemma degreesAux_ok_of_good (n : ℕ) (es : List Edge) (degs : List ℕ)
    (h : ∀ e ∈ es, ¬ npOutOfBounds n e.1 ∧ ¬ npOutOfBounds n e.2.1) :
    ∃ out, degreesAux n es degs = .ok out := by
  induction es generalizing degs with
  | nil => exact ⟨degs, rfl⟩
  | cons e rest ih =>
    obtain ⟨s, t, ty⟩ := e
    obtain ⟨hs, ht⟩ := h (s, t, ty) (List.mem_cons_self _ _)
    obtain ⟨degs1, h1⟩ := bumpAt_ok_ex n degs s hs
    obtain ⟨degs2, h2⟩ := bumpAt_ok_ex n degs1 t ht
    obtain ⟨out, hr⟩ := ih degs2 (fun e he => h e (List.mem_cons_of_mem _ he))
    exact ⟨out, by simp [degreesAux, h1, h2, hr]⟩

lemma cntIn_counterAdd_same {α : Type} [DecidableEq α] (acc : List (α × ℕ)) (k : α) :
    cntIn (counterAdd acc k) k = cntIn acc k + 1 := by
  induction acc with
  | nil => simp [counterAdd, cntIn]
  | cons e rest ih =>
    obtain ⟨a, c⟩ := e
    by_cases h : a = k
    · simp [counterAdd, cntIn, h]
    · simp [counterAdd, cntIn, h, ih]

lemma cntIn_counterAdd_ne {α : Type} [DecidableEq α] (acc : List (α × ℕ)) (k k' : α)
    (h : k' ≠ k) : cntIn (counterAdd acc k) k' = cntIn acc k' := by
  induction acc with
  | nil => simp [counterAdd, cntIn, Ne.symm h]
  | cons e rest ih =>
    obtain ⟨a, c⟩ := e
    by_cases ha : a = k
    · have hak : a ≠ k' := by rw [ha]; exact Ne.symm h
      simp [counterAdd, if_pos ha, cntIn, hak]
    · by_cases ha' : a = k'
      · simp [counterAdd, cntIn, ha', h]
      · simp [counterAdd, if_neg ha, cntIn, ha', ih]

lemma keysOf_counterAdd {α : Type} [DecidableEq α] (acc : List (α × ℕ)) (k : α) :
    keysOf (counterAdd acc k) =
      if k ∈ keysOf acc then keysOf acc else keysOf acc ++ [k] := by
  induction acc with
  | nil => simp [counterAdd, keysOf]
  | cons e rest ih =>
    obtain ⟨a, c⟩ := e
    by_cases h : a = k
    · subst h
      simp [counterAdd, keysOf]
    · simp only [counterAdd, if_neg h, keysOf, List.map_cons] at ih ⊢
      rw [ih]
      by_cases hm : k ∈ List.map Prod.fst rest
      · rw [if_pos hm, if_pos (by simp [List.mem_cons, hm])]
      · rw [if_neg hm, if_neg ?hcond]
        case hcond =>
          simp only [List.mem_cons, not_or]
          exact ⟨fun heq => h heq.symm, hm⟩
        simp

lemma keysOf_counterAdd_nodup {α : Type} [DecidableEq α] (acc : List (α × ℕ)) (k : α)
    (h : (keysOf acc).Nodup) : (keysOf (counterAdd acc k)).Nodup := by
  rw [keysOf_counterAdd]
  by_cases hm : k ∈ keysOf acc
  · simpa [hm] using h
  · simp only [hm, if_false]
    simpa [List.nodup_append] using ⟨h, hm⟩

lemma mem_keysOf_counterAdd {α : Type} [DecidableEq α] (acc : List (α × ℕ)) (k a : α) :
    a ∈ keysOf (counterAdd acc k) ↔ a ∈ keysOf acc ∨ a = k := by
  rw [keysOf_counterAdd]
  by_cases hm : k ∈ keysOf acc
  · simp only [hm, if_true]
    constructor
    · exact fun h => Or.inl h
    · rintro (h | rfl)
      · exact h
      · exact hm
  · simp [hm]

lemma cntIn_foldl {α : Type} [DecidableEq α] (l : List α) (acc : List (α × ℕ)) (k : α) :
    cntIn (l.foldl counterAdd acc) k = cntIn acc k + l.countP (fun x => x = k) := by
  induction l generalizing acc with
  | nil => simp
  | cons x rest ih =>
    rw [List.foldl_cons, ih, List.countP_cons]
    by_cases h : x = k
    · subst h
      rw [cntIn_counterAdd_same]
      simp
      omega
    · rw [cntIn_counterAdd_ne acc x k (fun hh => h hh.symm)]
      simp [h]

lemma keysOf_foldl_nodup {α : Type} [DecidableEq α] (l : List α) (acc : List (α × ℕ))
    (h : (keysOf acc).Nodup) : (keysOf (l.foldl counterAdd acc)).Nodup := by
  induction l generalizing acc with
  | nil => exact h
  | cons x rest ih => exact ih (counterAdd acc x) (keysOf_counterAdd_nodup acc x h)

lemma mem_keysOf_foldl {α : Type} [DecidableEq α] (l : List α) (acc : List (α × ℕ))
    (a : α) : a ∈ keysOf (l.foldl counterAdd acc) ↔ a ∈ keysOf acc ∨ a ∈ l := by
  induction l generalizing acc with
  | nil => simp
  | cons x rest ih =>
    rw [List.foldl_cons, ih, mem_keysOf_counterAdd]
    simp [List.mem_cons]
    tauto

lemma filter_length_eq_keys {α : Type} [DecidableEq α] (acc : List (α × ℕ))
    (h : (keysOf acc).Nodup) :
    (acc.filter (fun e => 1 < e.2)).length =
      ((keysOf acc).filter (fun k => 1 < cntIn acc k)).length := by
  induction acc with
  | nil => simp [keysOf, cntIn]
  | cons e rest ih =>
    obtain ⟨a, c⟩ := e
    have hkeys : keysOf ((a, c) :: rest) = a :: keysOf rest := rfl
    rw [hkeys] at h
    have ha : a ∉ keysOf rest := (List.nodup_cons.mp h).1
    have hrest : (keysOf rest).Nodup := (List.nodup_cons.mp h).2
    have hcongr : ∀ k ∈ keysOf rest,
        (decide (1 < cntIn ((a, c) :: rest) k)) = decide (1 < cntIn rest k) := by
      intro k hk
      have hka : ¬ (a = k) := fun hh => ha (hh ▸ hk)
      simp [cntIn, hka]
    rw [hkeys, List.filter_cons, List.filter_cons]
    have hself : cntIn ((a, c) :: rest) a = c := by simp [cntIn]
    rw [List.filter_congr hcongr]
    by_cases hc : 1 < c
    · simp [hself, hc, ih hrest]
    · simp [hself, hc, ih hrest]

lemma perm_toFinset {α : Type} [DecidableEq α] {l l' : List α} (h : l.Perm l') :
    l.toFinset = l'.toFinset :=
  Finset.ext fun a => by simp [List.mem_toFinset, h.mem_iff]

lemma counter_filter_card {α : Type} [DecidableEq α] (l : List α) :
    ((counterOf l).filter (fun e => 1 < e.2)).length =
      (l.toFinset.filter (fun k => 1 < l.countP (fun q => q = k))).card := by
  have hnodup : (keysOf (counterOf l)).Nodup :=
    keysOf_foldl_nodup l [] (by simp [keysOf])
  rw [filter_length_eq_keys (counterOf l) hnodup]
  have hcf : ∀ k, cntIn (counterOf l) k = l.countP (fun q => q = k) := by
    intro k
    rw [counterOf, cntIn_foldl]
    simp [cntIn]
  have hcnt : ∀ k ∈ keysOf (counterOf l),
      (decide (1 < cntIn (counterOf l) k)) = decide (1 < l.countP (fun q => q = k)) := by
    intro k _
    rw [hcf]
  rw [List.filter_congr hcnt]
  have hfn : ((keysOf (counterOf l)).filter
      (fun k => decide (1 < l.countP (fun q => q = k)))).Nodup := hnodup.filter _
  rw [← List.toFinset_card_of_nodup hfn]
  congr 1
  apply Finset.ext
  intro a
  simp only [List.mem_toFinset, List.mem_filter, Finset.mem_filter]
  rw [counterOf, mem_keysOf_foldl]
  simp [keysOf]

lemma roundedCoords_eq_map (d : Dataset) :
    roundedCoords d = d.nodes.map (fun nd => (round1 nd.x, round1 nd.y)) := by
  rw [roundedCoords, xsOf, ysOf, List.zip_map', List.map_map]
  rfl

lemma range_filter_lt (m i : ℕ) :
    (List.range m).filter (fun j => i < j) = List.range' (i + 1) (m - (i + 1)) := by
  induction m with
  | zero => simp
  | succ m ih =>
    rw [List.range_succ, List.filter_append, ih]
    by_cases h : i < m
    · have hm : m + 1 - (i + 1) = (m - (i + 1)) + 1 := by omega
      rw [hm, List.range'_concat]
      have hend : i + 1 + 1 * (m - (i + 1)) = m := by omega
      rw [hend]
      simp [h]
    · have hm0 : m - (i + 1) = 0 := by omega
      have hm1 : m + 1 - (i + 1) = 0 := by omega
      rw [hm0, hm1]
      simp [h]

lemma product_filter_lt (l1 l2 : List ℕ) :
    ((l1.product l2).filter (fun pr => pr.1 < pr.2)) =
      l1.flatMap (fun i => (l2.filter (fun j => i < j)).map (fun j => (i, j))) := by
  induction l1 with
  | nil => simp
  | cons a t ih =>
    rw [show (a :: t).product l2 = List.map (fun b => (a, b)) l2 ++ t.product l2
        from List.product_cons a t l2,
      List.filter_append, ih, List.flatMap_cons]
    congr 1
    rw [List.filter_map]
    congr 1

lemma distsList_eq_pairs_map (d : Dataset) :
    distsList d =
      ((List.range (sampleSize d)).flatMap (fun i =>
        (List.range' (i + 1) (sampleSize d - (i + 1))).map (fun j => (i, j)))).map
        (fun p => ptDist (coordAt d p.1) (coordAt d p.2)) := by
  rw [distsList, List.map_flatMap]
  congr 1
  funext i
  rw [List.map_map]
  congr 1

lemma distsList_short (d : Dataset) (h : d.nodes.length < 2) : distsList d = [] := by
  match hn : d.nodes with
  | [] => simp [distsList, sampleSize, hn]
  | [a] => simp [distsList, sampleSize, hn]
  | a :: b :: t =>
    rw [hn, List.length_cons, List.length_cons] at h
    exact absurd h (by omega)

lemma pyAt_xsOf (d : Dataset) (i : ℤ) (h0 : 0 ≤ i) :
    pyAt (xsOf d) i = (nodePt d i.toNat).1 := by
  rw [pyAt, xsOf, nodePt]
  have hlen : (d.nodes.map (fun nd => nd.x)).length = d.nodes.length := by
    rw [List.length_map]
  rw [hlen]
  have hpy : pyIndex i d.nodes.length = i.toNat := by
    rw [pyIndex, if_neg (by omega)]
  rw [hpy]
  rw [show (0 : ℚ) = defaultNode.x from rfl]
  exact List.getD_map d.nodes defaultNode (fun nd => nd.x)

lemma pyAt_ysOf (d : Dataset) (i : ℤ) (h0 : 0 ≤ i) :
    pyAt (ysOf d) i = (nodePt d i.toNat).2 := by
  rw [pyAt, ysOf, nodePt]
  have hlen : (d.nodes.map (fun nd => nd.y)).length = d.nodes.length := by
    rw [List.length_map]
  rw [hlen]
  have hpy : pyIndex i d.nodes.length = i.toNat := by
    rw [pyIndex, if_neg (by omega)]
  rw [hpy]
  rw [show (0 : ℚ) = defaultNode.y from rfl]
  exact List.getD_map d.nodes defaultNode (fun nd => nd.y)

set_option maxHeartbeats 1000000 in
/-- C1 (amended): the console stats report (every printed line and the
error outcome) and the pixel dimensions of the produced image do not depend
on the process hash key, so they are identical across runs on an unchanged
input; the Panel 1 hue array is a deterministic function of the node index
and the hash key only (which is why, with hash randomization, it is not
stable across processes — see the counterexample). -/
theorem c1_report_and_dims_independent_of_hash_key :
    ∀ (d : Dataset) (k0 k1 k0' k1' : ℕ),
      (run d k0 k1).lines = (run d k0' k1').lines ∧
      (run d k0 k1).err = (run d k0' k1').err ∧
      (run d k0 k1).image.map imgDims = (run d k0' k1').image.map imgDims := by
  intro d k0 k1 k0' k1'
  unfold run
  cases hxs : xsOf d
  · exact ⟨rfl, rfl, rfl⟩
  · cases hdeg : computeDegrees d
    · exact ⟨rfl, rfl, rfl⟩
    · cases hdr : distReport d
      · exact ⟨rfl, rfl, rfl⟩
      · rename_i v
        rcases v with ⟨dm, dmed, dmean⟩
        cases her : edgeLenReport d
        · exact ⟨rfl, rfl, rfl⟩
        · rename_i w
          rcases w with ⟨em, emed, emean, emax⟩
          refine ⟨by simp, by simp, by simp [imgDims]⟩

set_option maxHeartbeats 1000000 in
/-- C1 counterexample: two runs of the same two-node dataset under two
different process hash keys produce different Panel 1 hue arrays, so the
per-node hue is not a function of the node index alone and is not stable
across runs under CPython's default per-process hash randomization. -/
theorem c1_cx_hue_differs_across_hash_keys :
    (run dsPair 0 0).image.map ImageData.hues ≠
      (run dsPair 1 0).image.map ImageData.hues := by
  have h1 : (run dsPair 0 0).image.map ImageData.hues = some (huesList 0 0 2) := rfl
  have h2 : (run dsPair 1 0).image.map ImageData.hues = some (huesList 1 0 2) := rfl
  rw [h1, h2]
  simp only [ne_eq, Option.some.injEq]
  decide

/-- C2 (amended): the degree pass fails, with an `IndexError` naming an
offending endpoint and the axis size, exactly when some edge endpoint is
outside NumPy's accepted range `[-N, N)`; endpoints in `[-N, -1]` are
silently accepted by wraparound (see the counterexample), contrary to the
claim that every index outside `[0, N)` is rejected. -/
theorem c2_degree_pass_oob_behavior (d : Dataset) :
    (((computeDegrees d).isOk = false) ↔ badEdgeExists d) ∧
    ((∃ i, computeDegrees d = .error (.indexError i d.nodes.length) ∧
        npOutOfBounds d.nodes.length i ∧ i ∈ endpointsList d.edges) ↔
      badEdgeExists d) := by
  by_cases hb : badEdgeExists d
  · obtain ⟨i, hr, hoob, hmem⟩ :=
      degreesAux_err_of_bad d.nodes.length d.edges
        (List.replicate d.nodes.length 0) hb
    have hco : computeDegrees d = .error (.indexError i d.nodes.length) := hr
    constructor
    · rw [hco]
      simp [Except.isOk, Except.toBool, hb]
    · simp only [hb, iff_true]
      exact ⟨i, hco, hoob, hmem⟩
  · have hgood : ∀ e ∈ d.edges,
        ¬ npOutOfBounds d.nodes.length e.1 ∧ ¬ npOutOfBounds d.nodes.length e.2.1 := by
      intro e he
      constructor <;> intro hx <;> exact hb ⟨e, he, by tauto⟩
    obtain ⟨out, hr⟩ :=
      degreesAux_ok_of_good d.nodes.length d.edges
        (List.replicate d.nodes.length 0) hgood
    have hco : computeDegrees d = .ok out := hr
    constructor
    · rw [hco]
      simp [Except.isOk, Except.toBool, hb]
    · simp only [hb, iff_false]
      rintro ⟨i, he, -, -⟩
      rw [hco] at he
      exact Except.noConfusion he

set_option maxHeartbeats 1000000 in
/-- C2 counterexample: on a two-node dataset whose only edge has source
index `-1` (outside `[0, N)`), the degree pass does not fail: NumPy
wraparound increments the last node's degree, yielding degrees `[1, 1]`, and
the whole run completes with an image. -/
theorem c2_cx_negative_index_silently_wraps :
    computeDegrees dsNegIdx = Except.ok [1, 1] ∧
    (run dsNegIdx 0 0).err = none ∧
    (run dsNegIdx 0 0).image.isSome = true := ⟨rfl, rfl, rfl⟩

set_option maxHeartbeats 1000000 in
/-- C3 (code bug evidence): on a two-node dataset with an empty edge list,
the run aborts with the empty-reduction `ValueError` after printing eleven
lines — that is, at the edge-length statistics of line 67, before the node
size computation of line 88 is ever reached — and writes no image, instead
of substituting a constant node size and rendering to completion. -/
theorem c3_empty_edges_raises_empty_reduction :
    (run dsNoEdges 0 0).err = some RunError.emptyReduce ∧
    (run dsNoEdges 0 0).lines.length = 11 ∧
    (run dsNoEdges 0 0).image = none := ⟨rfl, rfl, rfl⟩

/-- C4 (amended): on an empty node sequence the run does fail fast — at the
first coordinate reduction, with NumPy's generic empty-reduction
`ValueError` rather than a dedicated "no data" error — and no NaN
propagates into any statistic; but the node-count and edge-count lines have
already been printed before the failure. -/
theorem c4_empty_nodes_error_after_count_lines (d : Dataset) (k0 k1 : ℕ)
    (h : d.nodes = []) :
    (run d k0 k1).lines = [OutLine.nodesLine 0, OutLine.edgesLine d.edges.length] ∧
    (run d k0 k1).err = some RunError.emptyReduce ∧
    (run d k0 k1).image = none := by
  have hxs : xsOf d = [] := by rw [xsOf, h]; rfl
  refine ⟨?_, ?_, ?_⟩ <;> simp [run, hxs, h]

/-- C4 witness: the amended behavior at the concrete empty-node dataset. -/
theorem c4_witness :
    dsEmptyWithEdge.nodes = [] ∧
    ((run dsEmptyWithEdge 0 0).lines =
        [OutLine.nodesLine 0, OutLine.edgesLine dsEmptyWithEdge.edges.length] ∧
      (run dsEmptyWithEdge 0 0).err = some RunError.emptyReduce ∧
      (run dsEmptyWithEdge 0 0).image = none) :=
  ⟨rfl, c4_empty_nodes_error_after_count_lines dsEmptyWithEdge 0 0 rfl⟩

set_option maxHeartbeats 1000000 in
/-- C4 counterexample: on the empty dataset the run prints the node-count
and edge-count statistics before raising, and the raised error is the
generic empty-reduction error; so it is not the case that a "no data" error
precedes every reported statistic. -/
theorem c4_cx_count_lines_printed_before_error :
    (run dsEmpty 0 0).lines = [OutLine.nodesLine 0, OutLine.edgesLine 0] ∧
    (run dsEmpty 0 0).err = some RunError.emptyReduce := ⟨rfl, rfl⟩

/-- C5: for a dataset whose edge endpoints are all valid indices, the degree
pass succeeds and the degree of each node equals the number of edge
endpoints touching it (a self-loop contributes both of its endpoints, hence
2), and the degrees sum to twice the edge count. -/
theorem c5_degrees_count_edge_endpoints (d : Dataset)
    (h : ∀ e ∈ d.edges, validEdge d.nodes.length e) :
    ∃ degs, computeDegrees d = Except.ok degs ∧ degs.length = d.nodes.length ∧
      (∀ j, j < d.nodes.length →
        degs.getD j 0 = (endpointsList d.edges).count (j : ℤ)) ∧
      degs.sum = 2 * d.edges.length := by
  obtain ⟨out, hr, hl, hp, hs⟩ := degreesAux_valid d.nodes.length d.edges
    (List.replicate d.nodes.length 0) (by simp) h
  exact ⟨out, hr, hl,
    fun j hj => by simpa [getD_replicate_zero] using hp j hj,
    by simpa using hs⟩

/-- C5 witness: the degree characterization at a concrete dataset with a
self-loop. -/
theorem c5_witness :
    (∀ e ∈ dsLoop.edges, validEdge dsLoop.nodes.length e) ∧
    (∃ degs, computeDegrees dsLoop = Except.ok degs ∧
      degs.length = dsLoop.nodes.length ∧
      (∀ j, j < dsLoop.nodes.length →
        degs.getD j 0 = (endpointsList dsLoop.edges).count (j : ℤ)) ∧
      degs.sum = 2 * dsLoop.edges.length) :=
  ⟨by decide, c5_degrees_count_edge_endpoints dsLoop (by decide)⟩

/-- C6: the reported overlap count equals the number of distinct rounded
coordinates occupied by more than one node, and it is invariant under any
permutation of the node sequence. -/
theorem c6_overlaps_matches_spec_and_perm_invariant (d d' : Dataset)
    (hperm : d.nodes.Perm d'.nodes) :
    overlapsCount d = specOverlapsCount d ∧ overlapsCount d = overlapsCount d' := by
  have key : ∀ dd : Dataset, overlapsCount dd = specOverlapsCount dd := by
    intro dd
    unfold overlapsCount specOverlapsCount
    exact counter_filter_card (roundedCoords dd)
  have hp : (roundedCoords d).Perm (roundedCoords d') := by
    rw [roundedCoords_eq_map, roundedCoords_eq_map]
    exact hperm.map _
  refine ⟨key d, ?_⟩
  rw [key d, key d']
  unfold specOverlapsCount
  have hset : ((roundedCoords d).toFinset.filter
      (fun p => 1 < (roundedCoords d).countP (fun q => q = p))) =
      ((roundedCoords d').toFinset.filter
      (fun p => 1 < (roundedCoords d').countP (fun q => q = p))) := by
    apply Finset.ext
    intro p
    simp only [Finset.mem_filter, List.mem_toFinset, hp.mem_iff, hp.countP_eq]
  rw [hset]

/-- C6 witness: the overlap count at a concrete dataset and a concrete
reordering of its nodes. -/
theorem c6_witness :
    dsOverlapA.nodes.Perm dsOverlapB.nodes ∧
    (overlapsCount dsOverlapA = specOverlapsCount dsOverlapA ∧
      overlapsCount dsOverlapA = overlapsCount dsOverlapB) :=
  ⟨by decide, c6_overlaps_matches_spec_and_perm_invariant dsOverlapA dsOverlapB
    (by decide)⟩

/-- C7: the pairwise-distance sample is exactly the list of Euclidean
distances of all unordered pairs `(i, j)` with `0 ≤ i < j < min(500, N)`,
and the reported triple is the minimum, median and mean of that sample
(absent — a raised `ValueError` — exactly when the sample is empty). -/
theorem c7_dist_sample_is_all_prefix_pairs (d : Dataset) :
    distsList d = specDistSample d ∧ distReport d = specDistReport d := by
  have h1 : distsList d = specDistSample d := by
    rw [distsList_eq_pairs_map, specDistSample, allPairs, product_filter_lt]
    have hfun : (fun i => ((List.range (sampleSize d)).filter
        (fun j => decide (i < j))).map (fun j => (i, j)))
        = (fun i => (List.range' (i + 1) (sampleSize d - (i + 1))).map
            (fun j => (i, j))) := by
      funext i
      rw [range_filter_lt]
    rw [hfun]
  refine ⟨h1, ?_⟩
  rw [distReport, specDistReport, h1]

/-- C8: for an edge with valid endpoint indices, the edge is drawn in
Panel 2 exactly when it is an edge of the dataset and both coordinates of
both of its endpoint nodes lie strictly inside the square window centered at
the mean position with half-width `2 × max(std x, std y)`. -/
theorem c8_panel2_draws_edge_iff_inside_window (d : Dataset) (e : Edge)
    (h : validEdge d.nodes.length e) :
    (e ∈ lines2 d ↔
      e ∈ d.edges ∧ nodeInWindow d (nodePt d e.1.toNat) ∧
        nodeInWindow d (nodePt d e.2.1.toNat)) := by
  obtain ⟨hs0, hsn, ht0, htn⟩ := h
  classical
  rw [lines2, List.mem_filter, decide_eq_true_eq]
  rw [show edgeInCore d e ↔
      (nodeInWindow d (nodePt d e.1.toNat) ∧ nodeInWindow d (nodePt d e.2.1.toNat))
    from by
      rw [edgeInCore, nodeInWindow, nodeInWindow,
        pyAt_xsOf d e.1 hs0, pyAt_ysOf d e.1 hs0,
        pyAt_xsOf d e.2.1 ht0, pyAt_ysOf d e.2.1 ht0]
      tauto]

/-- C8 witness: the drawing condition instantiated at a concrete valid
edge. -/
theorem c8_witness :
    validEdge dsPair.nodes.length (0, 1, 0) ∧
    (((0, 1, 0) : Edge) ∈ lines2 dsPair ↔
      ((0, 1, 0) : Edge) ∈ dsPair.edges ∧
        nodeInWindow dsPair (nodePt dsPair (0 : ℤ).toNat) ∧
        nodeInWindow dsPair (nodePt dsPair (1 : ℤ).toNat)) :=
  ⟨by decide, c8_panel2_draws_edge_iff_inside_window dsPair (0, 1, 0) (by decide)⟩

/-- C9 (amended): a run writes the image exactly when it raises no error,
and prints the final saved-file line exactly when it raises no error; so no
partial image is ever written on failure, but (see the counterexample) the
console lines printed before the failing computation are not rolled back. -/
theorem c9_image_and_saved_line_iff_success (d : Dataset) (k0 k1 : ℕ) :
    ((run d k0 k1).image.isSome = true ↔ (run d k0 k1).err = none) ∧
    (OutLine.savedLine ∈ (run d k0 k1).lines ↔ (run d k0 k1).err = none) := by
  unfold run
  cases hxs : xsOf d
  · simp
  · cases hdeg : computeDegrees d
    · simp
    · cases hdr : distReport d
      · simp
      · rename_i v
        rcases v with ⟨dm, dmed, dmean⟩
        cases her : edgeLenReport d
        · simp
        · rename_i w
          rcases w with ⟨em, emed, emean, emax⟩
          simp

set_option maxHeartbeats 1000000 in
/-- C9 counterexample: on a one-node dataset whose edge references index 1
(one past the last valid index), the run fails with the `IndexError` and
writes no image, but seven statistics lines have already been printed — the
console report is not all-or-nothing. -/
theorem c9_cx_stats_lines_printed_before_failure :
    (run dsOobEdge 0 0).err = some (RunError.indexError 1 1) ∧
    (run dsOobEdge 0 0).lines.length = 7 ∧
    (run dsOobEdge 0 0).image = none := ⟨rfl, rfl, rfl⟩

/-- C10: on any dataset with fewer than two nodes the pairwise-distance
sample is empty, and the run always fails (on the empty sample's minimum,
or earlier) without writing an image — even though only the empty dataset
is listed as a failure condition. -/
theorem c10_fewer_than_two_nodes_always_fails (d : Dataset) (k0 k1 : ℕ)
    (h : d.nodes.length < 2) :
    distsList d = [] ∧ (run d k0 k1).err.isSome = true ∧
      (run d k0 k1).image = none := by
  have hd : distsList d = [] := distsList_short d h
  have hdr : distReport d = none := by simp only [distReport, hd]
  have hrun : (run d k0 k1).err.isSome = true ∧ (run d k0 k1).image = none := by
    unfold run
    cases hxs : xsOf d
    · exact ⟨rfl, rfl⟩
    · cases hdeg : computeDegrees d
      · exact ⟨rfl, rfl⟩
      · simp [hdr]
  exact ⟨hd, hrun.1, hrun.2⟩

/-- C10 witness: the failure at a concrete one-node dataset. -/
theorem c10_witness :
    dsOneNode.nodes.length < 2 ∧
    (distsList dsOneNode = [] ∧ (run dsOneNode 0 0).err.isSome = true ∧
      (run dsOneNode 0 0).image = none) :=
  ⟨by decide, c10_fewer_than_two_nodes_always_fails dsOneNode 0 0 (by decide)⟩
